import Mathlib

/-!
Verification of `scripts/validate_min_versions_in_sync.py`.

The script cross-checks minimum dependency versions across three sources
(a CI yaml file, the `_optional.VERSIONS` code table, and `setup.cfg`)
and reports mismatches.  Python strings are modelled as lists of
characters (`PyStr`), Python dicts as association lists built by
insertion (`Dict`), and code that can raise an unhandled exception
returns `Option`.
-/

/-- Python strings are modelled as lists of characters. -/
abbrev PyStr := List Char

/-- Turn a Lean string literal into the `List Char` model. -/
def pystr (s : String) : PyStr := s.data

/-- Characters removed by Python's `str.strip()` (ASCII whitespace). -/
def pySpaceChar (c : Char) : Bool :=
  c = ' ' || c = '\t' || c = '\n' || c = '\r' || c = Char.ofNat 11 || c = Char.ofNat 12

/-- Model of Python `str.strip()`: drop leading and trailing whitespace. -/
def pyStrip (s : PyStr) : PyStr :=
  ((s.dropWhile pySpaceChar).reverse.dropWhile pySpaceChar).reverse

/-- Model of Python's substring containment test `sep in s`
(for a non-empty `sep`). -/
def pyContains (sep : PyStr) : PyStr → Bool
  | [] => sep.isPrefixOf []
  | c :: rest => sep.isPrefixOf (c :: rest) || pyContains sep rest

/-- Prepend a character to the first chunk of a split result. -/
def consHead (c : Char) : List PyStr → List PyStr
  | [] => [[c]]
  | h :: t => (c :: h) :: t

/-- Model of Python `s.split(sep)` for a one-character separator. -/
def pySplit1 (a : Char) : PyStr → List PyStr
  | [] => [[]]
  | c :: rest => if c = a then [] :: pySplit1 a rest else consHead c (pySplit1 a rest)

/-- Model of Python `s.split(sep)` for a two-character separator:
non-overlapping occurrences, scanned left to right. -/
def pySplit2 (a b : Char) : PyStr → List PyStr
  | [] => [[]]
  | [c] => [[c]]
  | c :: d :: rest =>
    if c = a ∧ d = b then [] :: pySplit2 a b rest
    else consHead c (pySplit2 a b (d :: rest))

/-- Occurrences of a one-character separator (Python `s.count(sep)`). -/
def countOcc1 (a : Char) : PyStr → Nat
  | [] => 0
  | c :: rest => (if c = a then 1 else 0) + countOcc1 a rest

/-- Non-overlapping occurrences of a two-character separator, counted
left to right (Python `s.count(sep)`). -/
def countOcc2 (a b : Char) : PyStr → Nat
  | [] => 0
  | [_] => 0
  | c :: d :: rest =>
    if c = a ∧ d = b then countOcc2 a b rest + 1
    else countOcc2 a b (d :: rest)

/-- ASCII model of Python `str.casefold()` (the package names involved
are ASCII, where casefold is per-character lowercasing). -/
def pyCasefold (s : PyStr) : PyStr := s.map Char.toLower

/-- A Python `dict[str, str]` as an insertion-ordered association list. -/
abbrev Dict := List (PyStr × PyStr)

/-- Python `d.get(k)`: the value at the first (unique) binding of `k`. -/
def dget (k : PyStr) : Dict → Option PyStr
  | [] => none
  | (k', v) :: rest => if k' = k then some v else dget k rest

/-- Python `d.get(k, default)`. -/
def dgetD (d : Dict) (k default : PyStr) : PyStr := (dget k d).getD default

/-- Python `k in d`. -/
def dHasKey (k : PyStr) (d : Dict) : Bool := (dget k d).isSome

/-- Python `d[k] = v`: overwrite in place if the key exists, else append. -/
def dinsert (k v : PyStr) : Dict → Dict
  | [] => [(k, v)]
  | (k', v') :: rest =>
    if k' = k then (k', v) :: rest else (k', v') :: dinsert k v rest

/-- Remove the binding of `k` (Python dicts have unique keys, so
filtering is the removal of `d.pop(k)`). -/
def dremoveKey (k : PyStr) (d : Dict) : Dict :=
  d.filter (fun p => !(decide (p.1 = k)))

/-- Python `d.pop(k)` as it is used by the script (the returned value is
discarded): `none` models the `KeyError` raised when `k` is absent. -/
def dpop (k : PyStr) (d : Dict) : Option Dict :=
  if dHasKey k d then some (dremoveKey k d) else none

/-! ## Constants of the script -/

/-- `EXCLUDE_DEPS = {"tzdata"}` (line 27). -/
def EXCLUDE_DEPS : List PyStr := [pystr "tzdata"]

/-- The comment marker `"# required dependencies"` (line 59). -/
def reqMarker : PyStr := pystr "# required dependencies"

/-- The comment marker `"# optional dependencies"` (line 61). -/
def optMarker : PyStr := pystr "# optional dependencies"

/-- The pip marker `"- pip:"` (line 63). -/
def pipMarker : PyStr := pystr "- pip:"

/-- The `"Not specified"` placeholder printed by `main` (lines 129-131). -/
def notSpecified : PyStr := pystr "Not specified"

/-- `CI_PATH = next(pathlib.Path("ci/deps").absolute().glob(...))`
(lines 22-24), over the list of files the glob matches: `next` yields
the first match and raises `StopIteration` (modelled `none`) only when
there is no match at all. -/
def ciPathResolve (ms : List PyStr) : Option PyStr :=
  ms.head?

/-- Pop every member of `EXCLUDE_DEPS` from a dict, failing (`none`,
a `KeyError`) if one of them is absent. -/
def popAll (d : Dict) : Option Dict :=
  EXCLUDE_DEPS.foldlM (fun acc k => dpop k acc) d

/-- `install_map.get(k, k).casefold()`: alias-normalize a package name
through `INSTALL_MAPPING` and case-fold it (lines 46 and 99). -/
def normName (im : Dict) (k : PyStr) : PyStr := pyCasefold (dgetD im k k)

/-! ## `get_versions_from_code` (lines 40-49)

The function pops the excluded packages from the module-level
`_optional.VERSIONS` dict in place; the mutation is modelled by
returning the updated table alongside the result, and the possible
`KeyError` by `Option`. -/

/-- The dict comprehension of lines 45-49: normalize every key except
`"pytest"` through the alias map and case-fold it. -/
def codeComprehension (im vs : Dict) : Dict :=
  vs.foldl
    (fun acc kv =>
      if kv.1 = pystr "pytest" then acc
      else dinsert (normName im kv.1) kv.2 acc) []

/-- `get_versions_from_code`, over the current `_optional.VERSIONS`
table `vs` and `_optional.INSTALL_MAPPING` `im`.  Returns the
name→version mapping together with the table as left mutated. -/
def getVersionsFromCode (vs im : Dict) : Option (Dict × Dict) := do
  let vs' ← popAll vs
  return (codeComprehension im vs', vs')

/-! ## `get_versions_from_ci` (lines 52-78) -/

/-- The loop state of `get_versions_from_ci`: the two mode flags and the
two dicts being built. -/
structure CIState where
  seenRequired : Bool
  seenOptional : Bool
  required : Dict
  optDeps : Dict
deriving DecidableEq

/-- The initial loop state. -/
def ciInit : CIState := ⟨false, false, [], []⟩

/-- `line.strip().split("==")` when `"==" in line`, else
`line.strip().split("=")` (lines 66-70). -/
def splitDep (line : PyStr) : List PyStr :=
  if pyContains (pystr "==") line then pySplit2 '=' '=' (pyStrip line)
  else pySplit1 '=' (pyStrip line)

/-- The delimiter `split` is performed on for the given line. -/
def ciDelim (line : PyStr) : PyStr :=
  if pyContains (pystr "==") line then pystr "==" else pystr "="

/-- Occurrences of the line's delimiter in the stripped line. -/
def ciDelimCount (line : PyStr) : Nat :=
  if pyContains (pystr "==") line then countOcc2 '=' '=' (pyStrip line)
  else countOcc1 '=' (pyStrip line)

/-- `package[2:]` applied to the first component of the split: the raw
package name a dependency line declares (line 71). -/
def rawPackageOf (line : PyStr) : PyStr :=
  match splitDep line with
  | p :: _ => p.drop 2
  | [] => []

/-- One iteration of the `for line in content` loop (lines 58-77):
`none` models the `ValueError` of a failed tuple unpacking. -/
def ciStep (s : CIState) (line : PyStr) : Option CIState :=
  if pyContains reqMarker line then some { s with seenRequired := true }
  else if pyContains optMarker line then some { s with seenOptional := true }
  else if pyContains pipMarker line then some s
  else if s.seenRequired && !(pyStrip line).isEmpty then
    match splitDep line with
    | [p, v] =>
      if p.drop 2 ∈ EXCLUDE_DEPS then some s
      else if !s.seenOptional then
        some { s with required := dinsert (pyCasefold (p.drop 2)) v s.required }
      else
        some { s with optDeps := dinsert (pyCasefold (p.drop 2)) v s.optDeps }
    | _ => none
  else some s

/-- The whole loop of `get_versions_from_ci`. -/
def ciFold (s : CIState) (lines : List PyStr) : Option CIState :=
  lines.foldlM ciStep s

/-- `get_versions_from_ci(content)`: the `(required_deps, optional_deps)`
pair, or `none` when a line fails to parse. -/
def getVersionsFromCI (lines : List PyStr) : Option (Dict × Dict) :=
  (ciFold ciInit lines).map fun s => (s.required, s.optDeps)

/-- The CI reader as the (amended) specification sentence describes it:
the two marker comments toggle flags — the required marker enables
parsing, the optional marker selects the optional mapping.  While
parsing is enabled, every non-blank, non-pip-marker, non-marker line is
parsed as `- name==version` or `- name=version` (split on `==` if
present, else on `=`; the leading list-item marker stripped); the name
is case-folded, excluded names are dropped, and the entry goes to the
optional mapping once the optional marker has been seen, else to the
required mapping.  `none` is a parse failure. -/
def ciReaderSpec (parseOn optOn : Bool) (req opt : Dict) :
    List PyStr → Option (Dict × Dict)
  | [] => some (req, opt)
  | line :: rest =>
    if pyContains reqMarker line then ciReaderSpec true optOn req opt rest
    else if pyContains optMarker line then ciReaderSpec parseOn true req opt rest
    else if pyContains pipMarker line then ciReaderSpec parseOn optOn req opt rest
    else if parseOn = true ∧ pyStrip line ≠ [] then
      match splitDep line with
      | [p, v] =>
        if p.drop 2 ∈ EXCLUDE_DEPS then ciReaderSpec parseOn optOn req opt rest
        else if optOn then
          ciReaderSpec parseOn optOn req (dinsert (pyCasefold (p.drop 2)) v opt) rest
        else
          ciReaderSpec parseOn optOn (dinsert (pyCasefold (p.drop 2)) v req) opt rest
      | _ => none
    else ciReaderSpec parseOn optOn req opt rest

/-- The part of the CI loop state `main` can observe: `main` discards
`required_deps`, so only the two flags and the optional dict matter. -/
def stripReq (s : CIState) : Bool × Bool × Dict :=
  (s.seenRequired, s.seenOptional, s.optDeps)

/-! ## `get_versions_from_setup` (lines 81-104)

The `configparser` lookups are external; the function is modelled over
the two raw option values `parser["options.extras_require"]["all"]` and
`...["test"]` it extracts. -/

/-- `setup_optional[1:].split("\n")` (line 88). -/
def allEntries (allRaw : PyStr) : List PyStr := pySplit1 '\n' (allRaw.drop 1)

/-- `set(test[1:].split("\n"))` (line 92), kept as the list of its
members. -/
def testEntries (testRaw : PyStr) : List PyStr := pySplit1 '\n' (testRaw.drop 1)

/-- The list-comprehension filter of lines 93-95: entries of the `all`
list not textually present in the `test` list. -/
def keptEntries (allRaw testRaw : PyStr) : List PyStr :=
  (allEntries allRaw).filter (fun d => !((testEntries testRaw).contains d))

/-- One iteration of the loop of lines 97-99:
`dependency.strip().split(">=")` must produce exactly a name and a
version (else a `ValueError`, modelled `none`), and the normalized name
is assigned in the dict. -/
def setupInsert (im : Dict) (acc : Dict) (dep : PyStr) : Option Dict :=
  match pySplit2 '>' '=' (pyStrip dep) with
  | [p, v] => some (dinsert (normName im p) v acc)
  | _ => none

/-- The dict built by the loop of lines 97-99. -/
def setupBuild (im : Dict) (allRaw testRaw : PyStr) : Option Dict :=
  (keptEntries allRaw testRaw).foldlM (setupInsert im) []

/-- `get_versions_from_setup`, over the alias map and the two raw
option values. -/
def getVersionsFromSetup (im : Dict) (allRaw testRaw : PyStr) : Option Dict := do
  let d ← setupBuild im allRaw testRaw
  popAll d

/-! ## `main` (lines 107-134) -/

/-- One block of the report printed for a package (lines 126-132). -/
structure ReportEntry where
  name : PyStr
  ciVersion : PyStr
  codeVersion : PyStr
  setupVersion : PyStr
deriving DecidableEq

/-- The diff of lines 113-115:
`(ci.items() | code.items() | setup.items()) -
 (ci.items() & code.items() & setup.items())`. -/
def computeDiff (ci co se : Dict) : Finset (PyStr × PyStr) :=
  (ci.toFinset ∪ co.toFinset ∪ se.toFinset) \
    (ci.toFinset ∩ co.toFinset ∩ se.toFinset)

/-- `packages = {package for package, _ in diff}` (line 118). -/
def diffPackages (ci co se : Dict) : Finset PyStr :=
  (computeDiff ci co se).image Prod.fst

/-- A concrete duplicate-free enumeration of `packages`
(line 118): Python iterates the set in unspecified order; the model
enumerates it in first-appearance order over the three sources. -/
def packagesList (ci co se : Dict) : List PyStr :=
  (((ci ++ co ++ se).filter
      (fun p => decide (p ∈ computeDiff ci co se))).map Prod.fst).dedup

/-- Lines 117-134: the report blocks written to stdout (one per
package, empty when nothing is printed) and the exit status. -/
def compareAndReport (ci co se : Dict) : List ReportEntry × Nat :=
  if computeDiff ci co se = ∅ then ([], 0)
  else
    ((packagesList ci co se).map
      (fun p =>
        ⟨p, (dget p ci).getD notSpecified, (dget p co).getD notSpecified,
          (dget p se).getD notSpecified⟩), 1)

/-- `main()`: read the CI file, the code table and the manifest, compare
and report.  `none` models an unhandled exception (no report, no exit
status); the required CI mapping is discarded, as is the mutated
`VERSIONS` table. -/
def mainRun (ciLines : List PyStr) (vs im : Dict) (allRaw testRaw : PyStr) :
    Option (List ReportEntry × Nat) := do
  let (_, ciOpt) ← getVersionsFromCI ciLines
  let (codeOpt, _) ← getVersionsFromCode vs im
  let setOpt ← getVersionsFromSetup im allRaw testRaw
  return compareAndReport ciOpt codeOpt setOpt

/-- The package names the report of a run names, in print order. -/
def reportNames (r : List ReportEntry × Nat) : List PyStr :=
  r.1.map ReportEntry.name

/-! ## Library lemmas -/

theorem mem_packagesList {ci co se : Dict} {q : PyStr} :
    q ∈ packagesList ci co se ↔ q ∈ diffPackages ci co se := by
  simp only [packagesList, diffPackages, List.mem_dedup, List.mem_map,
    List.mem_filter, Finset.mem_image, decide_eq_true_eq]
  constructor
  · rintro ⟨p, ⟨_, hd⟩, rfl⟩
    exact ⟨p, hd, rfl⟩
  · rintro ⟨p, hd, rfl⟩
    refine ⟨p, ⟨?_, hd⟩, rfl⟩
    have := hd
    simp only [computeDiff, Finset.mem_sdiff, Finset.mem_union,
      List.mem_toFinset] at this
    simp only [List.mem_append]
    tauto

theorem nodup_packagesList (ci co se : Dict) :
    (packagesList ci co se).Nodup := List.nodup_dedup _

theorem packagesList_ne_nil {ci co se : Dict}
    (h : computeDiff ci co se ≠ ∅) : packagesList ci co se ≠ [] := by
  obtain ⟨p, hp⟩ := Finset.nonempty_iff_ne_empty.mpr h
  have : p.1 ∈ packagesList ci co se :=
    mem_packagesList.mpr (Finset.mem_image_of_mem _ hp)
  intro hnil
  rw [hnil] at this
  exact absurd this (List.not_mem_nil _)

/-! ## Claims -/

/-- C1: for every triple of name-to-version mappings (CI optional,
code, setup), the comparator computes the diff as the union of all
(name, version) pairs present in at least one mapping minus the
intersection of pairs present in all three; if the diff is empty the
program exits with status 0 printing nothing, and if it is non-empty
the program prints a report that names each distinct package appearing
in the diff exactly once and exits with status 1. -/
theorem c1_comparator_diff_report (ci co se : Dict) (p : PyStr × PyStr) (q : PyStr) :
    (p ∈ computeDiff ci co se ↔
      ((p ∈ ci ∨ p ∈ co ∨ p ∈ se) ∧ ¬(p ∈ ci ∧ p ∈ co ∧ p ∈ se))) ∧
    ((compareAndReport ci co se).2 = if computeDiff ci co se = ∅ then 0 else 1) ∧
    ((compareAndReport ci co se).1 = [] ↔ computeDiff ci co se = ∅) ∧
    (reportNames (compareAndReport ci co se)).Nodup ∧
    (q ∈ reportNames (compareAndReport ci co se) ↔
      (computeDiff ci co se ≠ ∅ ∧ q ∈ diffPackages ci co se)) := by
  refine ⟨?_, ?_, ?_, ?_, ?_⟩
  · simp only [computeDiff, Finset.mem_sdiff, Finset.mem_union,
      Finset.mem_inter, List.mem_toFinset]
    tauto
  · unfold compareAndReport
    split <;> simp_all
  · unfold compareAndReport
    split
    · simp_all
    · rename_i h
      simp only [List.map_eq_nil_iff]
      exact ⟨fun hc => absurd hc (packagesList_ne_nil h), fun hc => absurd hc h⟩
  · unfold reportNames compareAndReport
    split
    · simp
    · simp only []
      rw [List.map_map]
      have : (ReportEntry.name ∘ fun p =>
          (⟨p, (dget p ci).getD notSpecified, (dget p co).getD notSpecified,
            (dget p se).getD notSpecified⟩ : ReportEntry)) = id := rfl
      rw [this, List.map_id]
      exact nodup_packagesList ci co se
  · unfold reportNames compareAndReport
    split
    · simp_all
    · rename_i h
      simp only []
      rw [List.map_map]
      have : (ReportEntry.name ∘ fun p =>
          (⟨p, (dget p ci).getD notSpecified, (dget p co).getD notSpecified,
            (dget p se).getD notSpecified⟩ : ReportEntry)) = id := rfl
      rw [this, List.map_id]
      rw [mem_packagesList]
      exact ⟨fun hq => ⟨h, hq⟩, fun hq => hq.2⟩

theorem dget_dremoveKey_self (k : PyStr) (d : Dict) :
    dget k (dremoveKey k d) = none := by
  induction d with
  | nil => rfl
  | cons p rest ih =>
    by_cases h : p.1 = k
    · simpa [dremoveKey, List.filter_cons, h] using ih
    · simpa [dremoveKey, List.filter_cons, h, dget] using ih

theorem popAll_eq_dpop (d : Dict) : popAll d = dpop (pystr "tzdata") d := by
  simp [popAll, EXCLUDE_DEPS, List.foldlM]

/-- C3 counterexample: with two glob matches, resolution does not fail;
`next` silently yields the first match. -/
theorem c3_counterexample :
    ciPathResolve [pystr "ci/a.yaml", pystr "ci/b.yaml"] = some (pystr "ci/a.yaml") ∧
    ¬ ciPathResolve [pystr "ci/a.yaml", pystr "ci/b.yaml"] = none := by
  exact ⟨rfl, by simp [ciPathResolve]⟩

/-- C3 (amended): CI-file resolution fails (an unhandled
`StopIteration` terminates the process) exactly when the glob matches
zero files; when one or more files match, the first match is used
without any error. -/
theorem c3_resolution_first_match (ms : List PyStr) :
    (ciPathResolve ms = none ↔ ms = []) ∧
    (∀ a t, ciPathResolve (a :: t) = some a) := by
  constructor
  · cases ms <;> simp [ciPathResolve]
  · intro a t
    rfl

/-- C6: every entry of the manifest's `all` extras list textually
identical to an entry of the `test` extras list is removed before
version extraction: the kept entries contain nothing from the test
list, and the setup reader's output is computed from the kept entries
only. -/
theorem c6_test_entries_removed (allRaw testRaw : PyStr) (im : Dict) :
    (keptEntries allRaw testRaw).filter
        (fun d => (testEntries testRaw).contains d) = [] ∧
    getVersionsFromSetup im allRaw testRaw =
      (keptEntries allRaw testRaw).foldlM (setupInsert im) [] >>= popAll := by
  constructor
  · rw [List.filter_eq_nil_iff]
    intro d hd
    simp only [keptEntries, List.mem_filter, Bool.not_eq_true'] at hd
    simpa using hd.2
  · rfl

/-- C8: `get_versions_from_code` pops the excluded packages from the
shared `_optional.VERSIONS` table itself (modelled by returning the
mutated table): after a first call the table no longer holds
`"tzdata"`, and a second call on the same table raises `KeyError`
(returns `none`) — the function is not idempotent. -/
theorem c8_code_reader_mutates_table (vs im : Dict)
    (h : dHasKey (pystr "tzdata") vs = true) :
    getVersionsFromCode vs im =
      some (codeComprehension im (dremoveKey (pystr "tzdata") vs),
        dremoveKey (pystr "tzdata") vs) ∧
    dHasKey (pystr "tzdata") (dremoveKey (pystr "tzdata") vs) = false ∧
    getVersionsFromCode (dremoveKey (pystr "tzdata") vs) im = none := by
  have hrm : dHasKey (pystr "tzdata") (dremoveKey (pystr "tzdata") vs) = false := by
    simp [dHasKey, dget_dremoveKey_self]
  refine ⟨?_, hrm, ?_⟩
  · simp [getVersionsFromCode, popAll_eq_dpop, dpop, h]
  · simp [getVersionsFromCode, popAll_eq_dpop, dpop, hrm]

/-- C8 witness at a concrete table. -/
theorem c8_witness :
    getVersionsFromCode [(pystr "tzdata", pystr "2022a")] [] =
      some (codeComprehension [] (dremoveKey (pystr "tzdata")
          [(pystr "tzdata", pystr "2022a")]),
        dremoveKey (pystr "tzdata") [(pystr "tzdata", pystr "2022a")]) ∧
    dHasKey (pystr "tzdata") (dremoveKey (pystr "tzdata")
        [(pystr "tzdata", pystr "2022a")]) = false ∧
    getVersionsFromCode (dremoveKey (pystr "tzdata")
        [(pystr "tzdata", pystr "2022a")]) [] = none :=
  c8_code_reader_mutates_table [(pystr "tzdata", pystr "2022a")] [] (by decide)

/-- C9: given that the manifest's entries parse, `get_versions_from_setup`
returns at all exactly when every excluded package is a key of the
normalized `all` mapping; an absent excluded package raises `KeyError`
through the unconditional `dict.pop`. -/
theorem c9_setup_pop_requires_excluded (im : Dict) (allRaw testRaw : PyStr)
    (d : Dict) (h : setupBuild im allRaw testRaw = some d) :
    ((getVersionsFromSetup im allRaw testRaw).isSome = true ↔
      ∀ e ∈ EXCLUDE_DEPS, dHasKey e d = true) := by
  have : getVersionsFromSetup im allRaw testRaw = popAll d := by
    simp [getVersionsFromSetup, h]
  rw [this, popAll_eq_dpop]
  simp only [EXCLUDE_DEPS, List.mem_singleton, forall_eq, dpop]
  split <;> simp_all

/-- C9 witness: a manifest without `tzdata` makes the setup reader
raise. -/
theorem c9_witness :
    ((getVersionsFromSetup [] (pystr "\nnumpy>=1.20") (pystr "\n")).isSome = true ↔
      ∀ e ∈ EXCLUDE_DEPS, dHasKey e [(pystr "numpy", pystr "1.20")] = true) :=
  c9_setup_pop_requires_excluded [] (pystr "\nnumpy>=1.20") (pystr "\n")
    [(pystr "numpy", pystr "1.20")] (by decide)

theorem consHead_ne_nil (c : Char) (l : List PyStr) : consHead c l ≠ [] := by
  unfold consHead
  split <;> simp

theorem pySplit1_ne_nil (a : Char) (s : PyStr) : pySplit1 a s ≠ [] := by
  induction s with
  | nil => simp [pySplit1]
  | cons c rest ih =>
    simp only [pySplit1]
    split
    · simp
    · exact consHead_ne_nil _ _

theorem pySplit2_ne_nil (a b : Char) : ∀ s : PyStr, pySplit2 a b s ≠ []
  | [] => by simp [pySplit2]
  | [c] => by simp [pySplit2]
  | c :: d :: rest => by
    simp only [pySplit2]
    split
    · simp
    · exact consHead_ne_nil _ _

theorem length_consHead (c : Char) {l : List PyStr} (h : l ≠ []) :
    (consHead c l).length = l.length := by
  unfold consHead
  split
  · simp_all
  · simp

theorem length_pySplit1 (a : Char) (s : PyStr) :
    (pySplit1 a s).length = countOcc1 a s + 1 := by
  induction s with
  | nil => rfl
  | cons c rest ih =>
    simp only [pySplit1, countOcc1]
    split
    · simp [ih, Nat.add_comm]
    · rw [length_consHead _ (pySplit1_ne_nil a rest), ih]
      simp

theorem length_pySplit2 (a b : Char) :
    ∀ s : PyStr, (pySplit2 a b s).length = countOcc2 a b s + 1
  | [] => rfl
  | [c] => rfl
  | c :: d :: rest => by
    simp only [pySplit2, countOcc2]
    split
    · simp [length_pySplit2 a b rest]
    · rw [length_consHead _ (pySplit2_ne_nil a b (d :: rest))]
      exact length_pySplit2 a b (d :: rest)

theorem length_splitDep (line : PyStr) :
    (splitDep line).length = ciDelimCount line + 1 := by
  unfold splitDep ciDelimCount
  split
  · exact length_pySplit2 '=' '=' (pyStrip line)
  · exact length_pySplit1 '=' (pyStrip line)

/-- C7: for every CI dependency line in parsing position whose stripped
text does not contain exactly one occurrence of its split delimiter
(`==` when present in the line, otherwise `=`), the reader propagates
an unhandled parse exception (and conversely parses it otherwise). -/
theorem c7_parse_error_iff (s : CIState) (line : PyStr)
    (h1 : s.seenRequired = true)
    (h2 : pyContains reqMarker line = false)
    (h3 : pyContains optMarker line = false)
    (h4 : pyContains pipMarker line = false)
    (h5 : (pyStrip line).isEmpty = false) :
    (ciStep s line = none ↔ ciDelimCount line ≠ 1) := by
  have hlen := length_splitDep line
  unfold ciStep
  rw [if_neg (by simp [h2]), if_neg (by simp [h3]), if_neg (by simp [h4]),
    if_pos (by simp [h1, h5])]
  rcases hsd : splitDep line with _ | ⟨p, _ | ⟨v, _ | ⟨w, t⟩⟩⟩ <;>
    rw [hsd] at hlen <;> simp only [List.length] at hlen
  · exact absurd hlen (by omega)
  · exact iff_of_true rfl (by omega)
  · have hc : ciDelimCount line = 1 := by omega
    simp only [hc, ne_eq, not_true_eq_false, iff_false]
    intro hnone
    split at hnone
    · exact Option.noConfusion hnone
    · split at hnone <;> exact Option.noConfusion hnone
  · exact iff_of_true rfl (by omega)

/-- C7 witness: a dependency line with no delimiter at all fails. -/
theorem c7_witness :
    (ciStep ⟨true, false, [], []⟩ (pystr "  - foo") = none ↔
      ciDelimCount (pystr "  - foo") ≠ 1) :=
  c7_parse_error_iff ⟨true, false, [], []⟩ (pystr "  - foo") rfl
    (by decide) (by decide) (by decide) (by decide)

theorem mem_dinsert {p : PyStr × PyStr} {k v : PyStr} {d : Dict}
    (h : p ∈ dinsert k v d) : p = (k, v) ∨ p ∈ d := by
  induction d with
  | nil => simpa [dinsert] using h
  | cons q rest ih =>
    obtain ⟨qk, qv⟩ := q
    simp only [dinsert] at h
    by_cases hq : qk = k
    · rw [if_pos hq] at h
      rcases List.mem_cons.mp h with h1 | h1
      · left
        rw [h1, hq]
      · right
        exact List.mem_cons_of_mem _ h1
    · rw [if_neg hq] at h
      rcases List.mem_cons.mp h with h1 | h1
      · right
        rw [h1]
        exact List.mem_cons_self _ _
      · rcases ih h1 with h2 | h2
        · exact Or.inl h2
        · exact Or.inr (List.mem_cons_of_mem _ h2)

/-- Exhaustive description of one CI loop iteration that succeeds. -/
theorem ciStep_cases {s s' : CIState} {line : PyStr} (h : ciStep s line = some s') :
    s' = { s with seenRequired := true } ∨
    (pyContains optMarker line = true ∧ s' = { s with seenOptional := true }) ∨
    s' = s ∨
    (∃ p v, splitDep line = [p, v] ∧ rawPackageOf line = p.drop 2 ∧
      p.drop 2 ∉ EXCLUDE_DEPS ∧
      ((s.seenOptional = false ∧
          s' = { s with required := dinsert (pyCasefold (p.drop 2)) v s.required }) ∨
        (s.seenOptional = true ∧
          s' = { s with optDeps := dinsert (pyCasefold (p.drop 2)) v s.optDeps }))) := by
  unfold ciStep at h
  split at h
  · injection h with h
    exact Or.inl h.symm
  · split at h
    · rename_i hoc
      injection h with h
      exact Or.inr (Or.inl ⟨hoc, h.symm⟩)
    · split at h
      · injection h with h
        exact Or.inr (Or.inr (Or.inl h.symm))
      · split at h
        · rcases hsd : splitDep line with _ | ⟨p, _ | ⟨v, _ | ⟨w, t⟩⟩⟩ <;>
            rw [hsd] at h
          · exact Option.noConfusion h
          · exact Option.noConfusion h
          · have hraw : rawPackageOf line = p.drop 2 := by
              unfold rawPackageOf
              rw [hsd]
            split at h
            · rename_i ps vs heq
              simp only [List.cons.injEq, and_true] at heq
              obtain ⟨hp, hv⟩ := heq
              subst hp
              subst hv
              split at h
              · injection h with h
                exact Or.inr (Or.inr (Or.inl h.symm))
              · rename_i hnotmem
                split at h
                · rename_i hopt
                  injection h with h
                  refine Or.inr (Or.inr (Or.inr ⟨p, v, rfl, hraw, hnotmem,
                    Or.inl ⟨?_, h.symm⟩⟩))
                  revert hopt
                  cases s.seenOptional <;> simp
                · rename_i hopt
                  injection h with h
                  refine Or.inr (Or.inr (Or.inr ⟨p, v, rfl, hraw, hnotmem,
                    Or.inr ⟨?_, h.symm⟩⟩))
                  revert hopt
                  cases s.seenOptional <;> simp
            · rename_i hno
              exact (hno p v rfl).elim
          · exact Option.noConfusion h
        · injection h with h
          exact Or.inr (Or.inr (Or.inl h.symm))

/-- Invariant preservation along the CI loop. -/
theorem ciFold_inv (P : CIState → Prop) :
    ∀ (lines : List PyStr) (s s' : CIState),
      (∀ ℓ ∈ lines, ∀ t t' : CIState, ciStep t ℓ = some t' → P t → P t') →
      ciFold s lines = some s' → P s → P s' := by
  intro lines
  induction lines with
  | nil =>
    intro s s' _ h hP
    unfold ciFold at h
    simp only [List.foldlM_nil, pure, Option.some.injEq] at h
    rwa [← h]
  | cons ℓ rest ih =>
    intro s s' hstep h hP
    unfold ciFold at h
    rw [List.foldlM_cons] at h
    cases hst : ciStep s ℓ with
    | none =>
      rw [hst] at h
      simp at h
    | some s₁ =>
      rw [hst] at h
      simp only [Option.bind_eq_bind, Option.some_bind] at h
      exact ih s₁ s' (fun ℓ' hℓ' => hstep ℓ' (List.mem_cons_of_mem _ hℓ')) h
        (hstep ℓ (List.mem_cons_self _ _) s s₁ hst hP)

/-- Keys in the dicts a successful CI loop builds are case-folded raw
names. -/
theorem ciFold_keys_casefolded {lines : List PyStr} {s' : CIState}
    (h : ciFold ciInit lines = some s') :
    (∀ p ∈ s'.required, ∃ raw, p.1 = pyCasefold raw) ∧
    (∀ p ∈ s'.optDeps, ∃ raw, p.1 = pyCasefold raw) := by
  refine ciFold_inv
    (fun st => (∀ p ∈ st.required, ∃ raw, p.1 = pyCasefold raw) ∧
      (∀ p ∈ st.optDeps, ∃ raw, p.1 = pyCasefold raw))
    lines ciInit s' ?_ h ?_
  · intro ℓ _ t t' hst hP
    rcases ciStep_cases hst with h1 | ⟨_, h1⟩ | h1 | ⟨p, v, _, _, _, h1 | h1⟩ <;>
      try (rw [h1]; exact hP)
    · rw [h1.2]
      refine ⟨?_, hP.2⟩
      intro q hq
      rcases mem_dinsert hq with h2 | h2
      · exact ⟨p.drop 2, by rw [h2]⟩
      · exact hP.1 q h2
    · rw [h1.2]
      refine ⟨hP.1, ?_⟩
      intro q hq
      rcases mem_dinsert hq with h2 | h2
      · exact ⟨p.drop 2, by rw [h2]⟩
      · exact hP.2 q h2
  · exact ⟨by simp [ciInit], by simp [ciInit]⟩

theorem codeComprehension_keys (im vs : Dict) :
    ∀ p ∈ codeComprehension im vs, ∃ k, p.1 = normName im k := by
  have H : ∀ (l acc : Dict), (∀ p ∈ acc, ∃ k, p.1 = normName im k) →
      ∀ p ∈ l.foldl (fun acc kv =>
        if kv.1 = pystr "pytest" then acc
        else dinsert (normName im kv.1) kv.2 acc) acc, ∃ k, p.1 = normName im k := by
    intro l
    induction l with
    | nil =>
      intro acc hacc p hp
      exact hacc p hp
    | cons kv rest ih =>
      intro acc hacc p hp
      rw [List.foldl_cons] at hp
      refine ih _ ?_ p hp
      intro q hq
      by_cases hk : kv.1 = pystr "pytest"
      · rw [if_pos hk] at hq
        exact hacc q hq
      · rw [if_neg hk] at hq
        rcases mem_dinsert hq with h1 | h1
        · exact ⟨kv.1, by rw [h1]⟩
        · exact hacc q h1
  exact H vs [] (by simp)

theorem setupInsert_keys {im acc d : Dict} {e : PyStr}
    (hacc : ∀ p ∈ acc, ∃ k, p.1 = normName im k)
    (h : setupInsert im acc e = some d) :
    ∀ p ∈ d, ∃ k, p.1 = normName im k := by
  unfold setupInsert at h
  split at h
  · rename_i a b heq
    injection h with h
    subst h
    intro q hq
    rcases mem_dinsert hq with h1 | h1
    · exact ⟨a, by rw [h1]⟩
    · exact hacc q h1
  · exact Option.noConfusion h

theorem setupBuild_keys {im : Dict} :
    ∀ (l : List PyStr) (acc d : Dict),
      (∀ p ∈ acc, ∃ k, p.1 = normName im k) →
      l.foldlM (setupInsert im) acc = some d →
      ∀ p ∈ d, ∃ k, p.1 = normName im k := by
  intro l
  induction l with
  | nil =>
    intro acc d hacc h
    simp only [List.foldlM_nil, pure, Option.some.injEq] at h
    rwa [← h]
  | cons e rest ih =>
    intro acc d hacc h
    rw [List.foldlM_cons] at h
    cases hse : setupInsert im acc e with
    | none =>
      rw [hse] at h
      simp at h
    | some acc' =>
      rw [hse] at h
      simp only [Option.bind_eq_bind, Option.some_bind] at h
      exact ih acc' d (setupInsert_keys hacc hse) h

theorem mem_of_mem_popAll {d d' : Dict} (h : popAll d = some d') :
    ∀ p ∈ d', p ∈ d := by
  rw [popAll_eq_dpop] at h
  unfold dpop at h
  split at h
  · injection h with h
    subst h
    intro p hp
    exact List.mem_of_mem_filter hp
  · exact Option.noConfusion h

/-- C2 counterexample: the CI reader does not alias-normalize.  With an
alias mapping sending the import name `dateutil` to the distribution
name `python-dateutil`, a CI line declaring `dateutil` keeps the key
`dateutil` — not the canonical aliased key the other two readers would
produce. -/
theorem c2_counterexample :
    getVersionsFromCI
        [pystr "# required dependencies", pystr "# optional dependencies",
         pystr "  - dateutil=2.8.1"]
      = some ([], [(pystr "dateutil", pystr "2.8.1")]) ∧
    normName [(pystr "dateutil", pystr "python-dateutil")] (pystr "dateutil")
      = pystr "python-dateutil" ∧
    pystr "dateutil" ≠ pystr "python-dateutil" := by
  refine ⟨by decide, by decide, by decide⟩

/-- C2 (amended): names are case-folded in all three readers, and the
code and setup readers also normalize through the alias mapping before
comparison; the CI reader, however, only case-folds — it never applies
the alias (install-name) mapping, so its keys are case-folded raw names
from the CI file. -/
theorem c2_normalization (im vs : Dict) (allRaw testRaw : PyStr)
    (lines : List PyStr) (out vs' d req opt : Dict)
    (hcode : getVersionsFromCode vs im = some (out, vs'))
    (hsetup : getVersionsFromSetup im allRaw testRaw = some d)
    (hci : getVersionsFromCI lines = some (req, opt)) :
    (∀ p ∈ out, ∃ k, p.1 = normName im k) ∧
    (∀ p ∈ d, ∃ k, p.1 = normName im k) ∧
    (∀ p ∈ req, ∃ raw, p.1 = pyCasefold raw) ∧
    (∀ p ∈ opt, ∃ raw, p.1 = pyCasefold raw) := by
  refine ⟨?_, ?_, ?_, ?_⟩
  · unfold getVersionsFromCode at hcode
    cases hpa : popAll vs with
    | none =>
      rw [hpa] at hcode
      simp at hcode
    | some vs₁ =>
      rw [hpa] at hcode
      simp only [Option.bind_eq_bind, Option.some_bind, pure,
        Option.some.injEq, Prod.mk.injEq] at hcode
      rw [← hcode.1]
      exact codeComprehension_keys im vs₁
  · unfold getVersionsFromSetup at hsetup
    cases hsb : setupBuild im allRaw testRaw with
    | none =>
      rw [hsb] at hsetup
      simp at hsetup
    | some d₁ =>
      rw [hsb] at hsetup
      simp only [Option.bind_eq_bind, Option.some_bind] at hsetup
      intro p hp
      exact setupBuild_keys _ [] d₁ (by simp) hsb p (mem_of_mem_popAll hsetup p hp)
  · unfold getVersionsFromCI at hci
    cases hcf : ciFold ciInit lines with
    | none =>
      rw [hcf] at hci
      simp at hci
    | some s' =>
      rw [hcf] at hci
      simp only [Option.map_some', Option.some.injEq, Prod.mk.injEq] at hci
      rw [← hci.1]
      exact (ciFold_keys_casefolded hcf).1
  · unfold getVersionsFromCI at hci
    cases hcf : ciFold ciInit lines with
    | none =>
      rw [hcf] at hci
      simp at hci
    | some s' =>
      rw [hcf] at hci
      simp only [Option.map_some', Option.some.injEq, Prod.mk.injEq] at hci
      rw [← hci.2]
      exact (ciFold_keys_casefolded hcf).2

/-- C2 witness at concrete inputs for all three readers. -/
theorem c2_witness :
    (∀ p ∈ [(pystr "numpy", pystr "1.21")], ∃ k, p.1 = normName [] k) ∧
    (∀ p ∈ [(pystr "numpy", pystr "1.20")], ∃ k, p.1 = normName [] k) ∧
    (∀ p ∈ ([] : Dict), ∃ raw, p.1 = pyCasefold raw) ∧
    (∀ p ∈ [(pystr "numpy", pystr "1.20")], ∃ raw, p.1 = pyCasefold raw) :=
  c2_normalization [] [(pystr "numpy", pystr "1.21"), (pystr "tzdata", pystr "2022a")]
    (pystr "\nnumpy>=1.20\ntzdata>=2022a") (pystr "\n")
    [pystr "# required dependencies", pystr "# optional dependencies",
     pystr "  - numpy=1.20"]
    [(pystr "numpy", pystr "1.21")] [(pystr "numpy", pystr "1.21")]
    [(pystr "numpy", pystr "1.20")] [] [(pystr "numpy", pystr "1.20")]
    (by decide) (by decide) (by decide)

theorem dget_dinsert (k q v : PyStr) (d : Dict) :
    dget k (dinsert q v d) = if q = k then some v else dget k d := by
  induction d with
  | nil => simp [dinsert, dget]
  | cons p rest ih =>
    obtain ⟨pk, pv⟩ := p
    simp only [dinsert]
    by_cases hp : pk = q
    · rw [if_pos hp]
      by_cases hk : q = k
      · simp [dget, hp, hk]
      · have : ¬ pk = k := by rw [hp]; exact hk
        simp [dget, this, hk]
    · rw [if_neg hp]
      by_cases hk : pk = k
      · have : ¬ q = k := by rw [← hk]; exact fun he => hp he.symm
        simp [dget, hk, this]
      · simp [dget, hk, ih]

theorem mem_dremoveKey {q : PyStr × PyStr} {k : PyStr} {d : Dict}
    (h : q ∈ dremoveKey k d) : q ∈ d ∧ q.1 ≠ k := by
  unfold dremoveKey at h
  have h1 := List.mem_of_mem_filter h
  have h2 := List.of_mem_filter h
  simp only [Bool.not_eq_true', decide_eq_false_iff_not] at h2
  exact ⟨h1, h2⟩

theorem hasKey_of_mem {k v : PyStr} {d : Dict} (h : (k, v) ∈ d) :
    dHasKey k d = true := by
  induction d with
  | nil => exact absurd h (List.not_mem_nil _)
  | cons p rest ih =>
    obtain ⟨pk, pv⟩ := p
    rcases List.mem_cons.mp h with h1 | h1
    · obtain ⟨h2, h3⟩ := Prod.mk.injEq .. ▸ h1
      simp [dHasKey, dget, h2.symm]
    · by_cases hp : pk = k
      · simp [dHasKey, dget, hp]
      · simpa [dHasKey, dget, hp] using ih h1

theorem mem_reportNames_subset {ci co se : Dict} {q : PyStr}
    (h : q ∈ reportNames (compareAndReport ci co se)) :
    q ∈ diffPackages ci co se := by
  unfold reportNames compareAndReport at h
  split at h
  · simp at h
  · simp only [] at h
    rw [List.map_map] at h
    have he : (ReportEntry.name ∘ fun p =>
        (⟨p, (dget p ci).getD notSpecified, (dget p co).getD notSpecified,
          (dget p se).getD notSpecified⟩ : ReportEntry)) = id := rfl
    rw [he, List.map_id] at h
    exact mem_packagesList.mp h

theorem diffPackages_hasKey {ci co se : Dict} {q : PyStr}
    (h : q ∈ diffPackages ci co se) :
    dHasKey q ci = true ∨ dHasKey q co = true ∨ dHasKey q se = true := by
  simp only [diffPackages, computeDiff, Finset.mem_image, Finset.mem_sdiff,
    Finset.mem_union, List.mem_toFinset] at h
  obtain ⟨p, ⟨hmem, _⟩, hq⟩ := h
  obtain ⟨pk, pv⟩ := p
  subst hq
  rcases hmem with (h1 | h1) | h1
  · exact Or.inl (hasKey_of_mem h1)
  · exact Or.inr (Or.inl (hasKey_of_mem h1))
  · exact Or.inr (Or.inr (hasKey_of_mem h1))

theorem codeComprehension_hasKey_false {im vs : Dict} {e : PyStr}
    (h : ∀ kv ∈ vs, normName im kv.1 ≠ e) :
    dHasKey e (codeComprehension im vs) = false := by
  have H : ∀ (l acc : Dict), (∀ kv ∈ l, normName im kv.1 ≠ e) →
      dHasKey e acc = false →
      dHasKey e (l.foldl (fun acc kv =>
        if kv.1 = pystr "pytest" then acc
        else dinsert (normName im kv.1) kv.2 acc) acc) = false := by
    intro l
    induction l with
    | nil =>
      intro acc _ hacc
      exact hacc
    | cons kv rest ih =>
      intro acc hl hacc
      rw [List.foldl_cons]
      refine ih _ (fun q hq => hl q (List.mem_cons_of_mem _ hq)) ?_
      by_cases hk : kv.1 = pystr "pytest"
      · rwa [if_pos hk]
      · rw [if_neg hk]
        simp only [dHasKey, dget_dinsert]
        rw [if_neg (hl kv (List.mem_cons_self _ _))]
        exact hacc
  exact H vs [] h rfl

theorem popAll_some {d d' : Dict} (h : popAll d = some d') :
    d' = dremoveKey (pystr "tzdata") d := by
  rw [popAll_eq_dpop] at h
  unfold dpop at h
  split at h
  · injection h with h
    exact h.symm
  · exact Option.noConfusion h

theorem getVersionsFromCI_some {lines : List PyStr} {req opt : Dict}
    (h : getVersionsFromCI lines = some (req, opt)) :
    ∃ s', ciFold ciInit lines = some s' ∧ s'.required = req ∧ s'.optDeps = opt := by
  unfold getVersionsFromCI at h
  cases hcf : ciFold ciInit lines with
  | none =>
    rw [hcf] at h
    simp at h
  | some s' =>
    rw [hcf] at h
    simp only [Option.map_some', Option.some.injEq, Prod.mk.injEq] at h
    exact ⟨s', rfl, h.1, h.2⟩

theorem getVersionsFromCode_some {vs im out vs' : Dict}
    (h : getVersionsFromCode vs im = some (out, vs')) :
    vs' = dremoveKey (pystr "tzdata") vs ∧ out = codeComprehension im vs' := by
  unfold getVersionsFromCode at h
  cases hp : popAll vs with
  | none =>
    rw [hp] at h
    simp at h
  | some v₁ =>
    rw [hp] at h
    simp only [Option.bind_eq_bind, Option.some_bind, pure, Option.some.injEq,
      Prod.mk.injEq] at h
    obtain ⟨h1, h2⟩ := h
    rw [← h2]
    exact ⟨popAll_some hp, h1.symm⟩

theorem getVersionsFromSetup_some {im : Dict} {allRaw testRaw : PyStr} {d' : Dict}
    (h : getVersionsFromSetup im allRaw testRaw = some d') :
    ∃ d, setupBuild im allRaw testRaw = some d ∧
      d' = dremoveKey (pystr "tzdata") d := by
  unfold getVersionsFromSetup at h
  cases hb : setupBuild im allRaw testRaw with
  | none =>
    rw [hb] at h
    simp at h
  | some d =>
    rw [hb] at h
    simp only [Option.bind_eq_bind, Option.some_bind] at h
    exact ⟨d, rfl, popAll_some h⟩

theorem mainRun_some {lines : List PyStr} {vs im : Dict} {allRaw testRaw : PyStr}
    {r : List ReportEntry × Nat} (h : mainRun lines vs im allRaw testRaw = some r) :
    ∃ req opt out vs' d,
      getVersionsFromCI lines = some (req, opt) ∧
      getVersionsFromCode vs im = some (out, vs') ∧
      getVersionsFromSetup im allRaw testRaw = some d ∧
      r = compareAndReport opt out d := by
  unfold mainRun at h
  cases h1 : getVersionsFromCI lines with
  | none =>
    rw [h1] at h
    simp at h
  | some pr1 =>
    obtain ⟨req, opt⟩ := pr1
    rw [h1] at h
    simp only [Option.bind_eq_bind, Option.some_bind] at h
    cases h2 : getVersionsFromCode vs im with
    | none =>
      rw [h2] at h
      simp at h
    | some pr2 =>
      obtain ⟨out, vs'⟩ := pr2
      rw [h2] at h
      simp only [Option.some_bind] at h
      cases h3 : getVersionsFromSetup im allRaw testRaw with
      | none =>
        rw [h3] at h
        simp at h
      | some d =>
        rw [h3] at h
        simp only [Option.some_bind, pure, Option.some.injEq] at h
        exact ⟨req, opt, out, vs', d, rfl, rfl, rfl, h.symm⟩

/-- An excluded name spelled exactly never enters the CI dicts. -/
theorem ciFold_excluded_key {lines : List PyStr} {s' : CIState} {e : PyStr}
    (he : e ∈ EXCLUDE_DEPS)
    (hci : ∀ ℓ ∈ lines, pyCasefold (rawPackageOf ℓ) = e → rawPackageOf ℓ = e)
    (h : ciFold ciInit lines = some s') :
    dHasKey e s'.required = false ∧ dHasKey e s'.optDeps = false := by
  refine ciFold_inv
    (fun st => dHasKey e st.required = false ∧ dHasKey e st.optDeps = false)
    lines ciInit s' ?_ h ⟨rfl, rfl⟩
  intro ℓ hℓ t t' hst hP
  rcases ciStep_cases hst with h1 | ⟨_, h1⟩ | h1 | ⟨p, v, hsd, hraw, hnm, h1 | h1⟩ <;>
    try (rw [h1]; exact hP)
  · rw [h1.2]
    refine ⟨?_, hP.2⟩
    simp only [dHasKey, dget_dinsert]
    split
    · rename_i heq
      exfalso
      have h2 := hci ℓ hℓ (by rw [hraw]; exact heq)
      rw [hraw] at h2
      rw [h2] at hnm
      exact hnm he
    · exact hP.1
  · rw [h1.2]
    refine ⟨hP.1, ?_⟩
    simp only [dHasKey, dget_dinsert]
    split
    · rename_i heq
      exfalso
      have h2 := hci ℓ hℓ (by rw [hraw]; exact heq)
      rw [hraw] at h2
      rw [h2] at hnm
      exact hnm he
    · exact hP.2

/-- C4 counterexample: the CI reader checks exclusion on the raw
(pre-case-fold) name, so a CI line spelling the excluded package
`tzdata` as `TZDATA` escapes exclusion and the program prints `tzdata`
in the diff. -/
theorem c4_counterexample :
    pystr "tzdata" ∈ EXCLUDE_DEPS ∧
    (mainRun
        [pystr "# required dependencies", pystr "# optional dependencies",
         pystr "  - TZDATA=2022a"]
        [(pystr "tzdata", pystr "2022a")] []
        (pystr "\ntzdata>=2022a") (pystr "\n")).map reportNames
      = some [pystr "tzdata"] := by
  exact ⟨by decide, by decide⟩

/-- C4 (amended): an excluded package never appears in the printed
diff, provided (a) every CI line whose parsed raw package name
case-folds to the excluded name already spells it exactly (the CI
reader checks exclusion before case-folding), and (b) no key of the
code table other than the excluded name itself normalizes to the
excluded name (the code reader pops the raw key before alias/case
normalization); the setup reader removes the excluded name from its
already-normalized output, needing no proviso. -/
theorem c4_excluded_never_reported (lines : List PyStr) (vs im : Dict)
    (allRaw testRaw : PyStr) (e : PyStr) (r : List ReportEntry × Nat)
    (he : e ∈ EXCLUDE_DEPS)
    (hci : ∀ ℓ ∈ lines, pyCasefold (rawPackageOf ℓ) = e → rawPackageOf ℓ = e)
    (hcode : ∀ kv ∈ vs, kv.1 ≠ e → normName im kv.1 ≠ e)
    (h : mainRun lines vs im allRaw testRaw = some r) :
    e ∉ reportNames r := by
  have he' : e = pystr "tzdata" := List.mem_singleton.mp he
  subst he'
  obtain ⟨req, opt, out, vs', d, h1, h2, h3, hr⟩ := mainRun_some h
  obtain ⟨s', hcf, _, hopt⟩ := getVersionsFromCI_some h1
  obtain ⟨hvs', hout⟩ := getVersionsFromCode_some h2
  obtain ⟨d₀, _, hd⟩ := getVersionsFromSetup_some h3
  intro hmem
  rw [hr] at hmem
  have hdiff := mem_reportNames_subset hmem
  rcases diffPackages_hasKey hdiff with hk | hk | hk
  · have := (ciFold_excluded_key he hci hcf).2
    rw [hopt] at this
    rw [this] at hk
    exact Bool.noConfusion hk
  · have : dHasKey (pystr "tzdata") out = false := by
      rw [hout]
      refine codeComprehension_hasKey_false ?_
      intro kv hkv
      obtain ⟨hkv1, hkv2⟩ := mem_dremoveKey (hvs' ▸ hkv)
      exact hcode kv hkv1 hkv2
    rw [this] at hk
    exact Bool.noConfusion hk
  · have : dHasKey (pystr "tzdata") d = false := by
      rw [hd]
      simp [dHasKey, dget_dremoveKey_self]
    rw [this] at hk
    exact Bool.noConfusion hk

/-- C4 witness: a run where a mismatched `numpy` is reported but the
exactly-spelled excluded `tzdata` (differing across sources) is not. -/
theorem c4_witness :
    pystr "tzdata" ∉ reportNames
      ([⟨pystr "numpy", pystr "1.20", pystr "1.21", pystr "1.20"⟩], 1) :=
  c4_excluded_never_reported
    [pystr "# required dependencies", pystr "# optional dependencies",
     pystr "  - tzdata=2021e", pystr "  - numpy=1.20"]
    [(pystr "numpy", pystr "1.21"), (pystr "tzdata", pystr "2022a")] []
    (pystr "\nnumpy>=1.20\ntzdata>=2022g") (pystr "\n")
    (pystr "tzdata")
    ([⟨pystr "numpy", pystr "1.20", pystr "1.21", pystr "1.20"⟩], 1)
    (by decide) (by decide) (by decide) (by decide)


theorem ciFold_eq_spec :
    ∀ (lines : List PyStr) (sr so : Bool) (req opt : Dict),
      (ciFold ⟨sr, so, req, opt⟩ lines).map (fun s => (s.required, s.optDeps)) =
        ciReaderSpec sr so req opt lines := by
  intro lines
  induction lines with
  | nil =>
    intro sr so req opt
    rfl
  | cons ℓ rest ih =>
    intro sr so req opt
    have hstep : ∀ s₁ : CIState, ciStep ⟨sr, so, req, opt⟩ ℓ = some s₁ →
        (ciFold ⟨sr, so, req, opt⟩ (ℓ :: rest)).map (fun s => (s.required, s.optDeps)) =
          (ciFold s₁ rest).map (fun s => (s.required, s.optDeps)) := by
      intro s₁ h₁
      unfold ciFold
      rw [List.foldlM_cons, h₁]
      simp
    have hnone : ciStep ⟨sr, so, req, opt⟩ ℓ = none →
        (ciFold ⟨sr, so, req, opt⟩ (ℓ :: rest)).map (fun s => (s.required, s.optDeps)) = none := by
      intro h₁
      unfold ciFold
      rw [List.foldlM_cons, h₁]
      rfl
    by_cases hreq : pyContains reqMarker ℓ = true
    · rw [hstep ⟨true, so, req, opt⟩ (by simp [ciStep, hreq]), ih true so req opt]
      conv_rhs => rw [ciReaderSpec]
      rw [if_pos hreq]
    · by_cases hopt : pyContains optMarker ℓ = true
      · rw [hstep ⟨sr, true, req, opt⟩ (by simp [ciStep, hreq, hopt]), ih sr true req opt]
        conv_rhs => rw [ciReaderSpec]
        rw [if_neg hreq, if_pos hopt]
      · by_cases hpip : pyContains pipMarker ℓ = true
        · rw [hstep ⟨sr, so, req, opt⟩ (by simp [ciStep, hreq, hopt, hpip]), ih sr so req opt]
          conv_rhs => rw [ciReaderSpec]
          rw [if_neg hreq, if_neg hopt, if_pos hpip]
        · by_cases hpar : (sr && !(pyStrip ℓ).isEmpty) = true
          · have hpar' : sr = true ∧ pyStrip ℓ ≠ [] := by
              rcases Bool.and_eq_true .. |>.mp hpar with ⟨h1, h2⟩
              refine ⟨h1, ?_⟩
              simpa using h2
            rcases hsd : splitDep ℓ with _ | ⟨p, _ | ⟨v, _ | ⟨w, t⟩⟩⟩
            · rw [hnone (by simp [ciStep, hreq, hopt, hpip, hpar, hsd])]
              conv_rhs => rw [ciReaderSpec]
              rw [if_neg hreq, if_neg hopt, if_neg hpip, if_pos hpar', hsd]
            · rw [hnone (by simp [ciStep, hreq, hopt, hpip, hpar, hsd])]
              conv_rhs => rw [ciReaderSpec]
              rw [if_neg hreq, if_neg hopt, if_neg hpip, if_pos hpar', hsd]
            · by_cases hexc : p.drop 2 ∈ EXCLUDE_DEPS
              · rw [hstep ⟨sr, so, req, opt⟩
                  (by simp [ciStep, hreq, hopt, hpip, hpar, hsd, hexc]),
                  ih sr so req opt]
                conv_rhs => rw [ciReaderSpec]
                rw [if_neg hreq, if_neg hopt, if_neg hpip, if_pos hpar', hsd]
                simp [hexc]
              · cases so with
                | false =>
                  rw [hstep ⟨sr, false, dinsert (pyCasefold (p.drop 2)) v req, opt⟩
                    (by simp [ciStep, hreq, hopt, hpip, hpar, hsd, hexc]),
                    ih sr false (dinsert (pyCasefold (p.drop 2)) v req) opt]
                  conv_rhs => rw [ciReaderSpec]
                  rw [if_neg hreq, if_neg hopt, if_neg hpip, if_pos hpar', hsd]
                  simp [hexc]
                | true =>
                  rw [hstep ⟨sr, true, req, dinsert (pyCasefold (p.drop 2)) v opt⟩
                    (by simp [ciStep, hreq, hopt, hpip, hpar, hsd, hexc]),
                    ih sr true req (dinsert (pyCasefold (p.drop 2)) v opt)]
                  conv_rhs => rw [ciReaderSpec]
                  rw [if_neg hreq, if_neg hopt, if_neg hpip, if_pos hpar', hsd]
                  simp [hexc]
            · rw [hnone (by simp [ciStep, hreq, hopt, hpip, hpar, hsd])]
              conv_rhs => rw [ciReaderSpec]
              rw [if_neg hreq, if_neg hopt, if_neg hpip, if_pos hpar', hsd]
          · have hpar' : ¬ (sr = true ∧ pyStrip ℓ ≠ []) := by
              intro hc
              apply hpar
              simp only [Bool.and_eq_true, hc.1, true_and]
              simpa using hc.2
            rw [hstep ⟨sr, so, req, opt⟩ (by
                unfold ciStep
                rw [if_neg hreq, if_neg hopt, if_neg hpip, if_neg (by simpa using hpar)]),
              ih sr so req opt]
            conv_rhs => rw [ciReaderSpec]
            rw [if_neg hreq, if_neg hopt, if_neg hpip, if_neg hpar']

/-- C5 counterexample: a file whose optional-dependencies marker
appears without the required-dependencies marker parses nothing — a
well-formed dependency line after the optional marker is not added to
the optional mapping, contrary to "while in required or optional mode
every non-blank, non-pip-marker line is parsed". -/
theorem c5_counterexample :
    getVersionsFromCI [pystr "# optional dependencies", pystr "  - foo=1"]
      = some ([], []) ∧
    rawPackageOf (pystr "  - foo=1") = pystr "foo" := by
  exact ⟨by decide, by decide⟩

/-- C5 (amended): the required marker enables parsing and the optional
marker selects the destination mapping (the optional marker alone does
not enable parsing); while parsing is enabled every non-blank,
non-pip-marker, non-marker line is parsed as `- name==version` or
`- name=version` — split on `==` if present else on `=`, the list-item
marker stripped — with names case-folded and excluded names dropped,
into the required mapping until the optional marker is seen, the
optional mapping afterwards.  `get_versions_from_ci` equals this
specification reader started with both flags off and empty dicts. -/
theorem c5_ci_reader_equals_spec (lines : List PyStr) :
    getVersionsFromCI lines = ciReaderSpec false false [] [] lines := by
  unfold getVersionsFromCI
  have h := ciFold_eq_spec lines false false [] []
  unfold ciInit
  rw [← h]

theorem ciFold_append (l₁ l₂ : List PyStr) (s : CIState) :
    ciFold s (l₁ ++ l₂) = (ciFold s l₁).bind (fun t => ciFold t l₂) := by
  unfold ciFold
  rw [List.foldlM_append]
  rfl

theorem ciFold_singleton (s : CIState) (ℓ : PyStr) :
    ciFold s [ℓ] = ciStep s ℓ := by
  unfold ciFold
  rw [List.foldlM_cons]
  cases ciStep s ℓ <;> rfl

theorem ciStep_congr {t u : CIState} (ℓ : PyStr)
    (h : stripReq t = stripReq u) :
    (ciStep t ℓ).map stripReq = (ciStep u ℓ).map stripReq := by
  obtain ⟨tsr, tso, treq, topt⟩ := t
  obtain ⟨usr, uso, ureq, uopt⟩ := u
  simp only [stripReq, Prod.mk.injEq] at h
  obtain ⟨h1, h2, h3⟩ := h
  subst h1
  subst h2
  subst h3
  unfold ciStep
  repeat' split
  all_goals rfl

theorem ciFold_congr :
    ∀ (lines : List PyStr) (t u : CIState), stripReq t = stripReq u →
      (ciFold t lines).map stripReq = (ciFold u lines).map stripReq := by
  intro lines
  induction lines with
  | nil =>
    intro t u h
    simpa [ciFold] using h
  | cons ℓ rest ih =>
    intro t u h
    unfold ciFold
    rw [List.foldlM_cons, List.foldlM_cons]
    have hs := ciStep_congr ℓ h
    cases ht : ciStep t ℓ with
    | none =>
      cases hu : ciStep u ℓ with
      | none => rfl
      | some u₁ =>
        rw [ht, hu] at hs
        simp at hs
    | some t₁ =>
      cases hu : ciStep u ℓ with
      | none =>
        rw [ht, hu] at hs
        simp at hs
      | some u₁ =>
        rw [ht, hu] at hs
        simp only [Option.map_some', Option.some.injEq] at hs
        simpa using ih t₁ u₁ hs

theorem ciFold_no_optMarker {lines : List PyStr} {s s' : CIState}
    (hl : ∀ ℓ ∈ lines, pyContains optMarker ℓ = false)
    (h : ciFold s lines = some s') (hs : s.seenOptional = false) :
    s'.seenOptional = false := by
  refine ciFold_inv (fun st => st.seenOptional = false) lines s s' ?_ h hs
  intro ℓ hℓ t t' hst hP
  rcases ciStep_cases hst with h1 | ⟨hc, _⟩ | h1 | ⟨p, v, _, _, _, ⟨_, h1⟩ | ⟨_, h1⟩⟩ <;>
    try (rw [h1]; exact hP)
  rw [hl ℓ hℓ] at hc
  exact Bool.noConfusion hc

theorem ciFold_mid :
    ∀ (mid : List PyStr) (s : CIState), s.seenRequired = true →
      s.seenOptional = false →
      (∀ ℓ ∈ mid, pyContains optMarker ℓ = false ∧
        (pyContains reqMarker ℓ = true ∨ pyContains pipMarker ℓ = true ∨
          pyStrip ℓ = [] ∨ (splitDep ℓ).length = 2)) →
      ∃ s', ciFold s mid = some s' ∧ s'.seenRequired = true ∧
        s'.seenOptional = false ∧ s'.optDeps = s.optDeps := by
  intro mid
  induction mid with
  | nil =>
    intro s h1 h2 _
    exact ⟨s, rfl, h1, h2, rfl⟩
  | cons ℓ rest ih =>
    intro s hsr hso hm
    obtain ⟨hmo, hmp⟩ := hm ℓ (List.mem_cons_self _ _)
    have hstep : ∃ s₁, ciStep s ℓ = some s₁ ∧ s₁.seenRequired = true ∧
        s₁.seenOptional = false ∧ s₁.optDeps = s.optDeps := by
      by_cases hreq : pyContains reqMarker ℓ = true
      · exact ⟨{ s with seenRequired := true }, by simp [ciStep, hreq], rfl, hso, rfl⟩
      · by_cases hpip : pyContains pipMarker ℓ = true
        · exact ⟨s, by simp [ciStep, hreq, hmo, hpip], hsr, hso, rfl⟩
        · by_cases hblank : pyStrip ℓ = []
          · have hbe : (pyStrip ℓ).isEmpty = true := by
              rw [hblank]
              rfl
            exact ⟨s, by simp [ciStep, hreq, hmo, hpip, hbe], hsr, hso, rfl⟩
          · have hbe : (pyStrip ℓ).isEmpty = false := by
              cases hstrip : pyStrip ℓ with
              | nil => exact absurd hstrip hblank
              | cons c cs => rfl
            have hlen2 : (splitDep ℓ).length = 2 := by
              rcases hmp with hc | hc | hc | hc
              · exact absurd hc hreq
              · exact absurd hc hpip
              · exact absurd hc hblank
              · exact hc
            obtain ⟨p, v, hpv⟩ := List.length_eq_two.mp hlen2
            by_cases hexc : p.drop 2 ∈ EXCLUDE_DEPS
            · exact ⟨s, by simp [ciStep, hreq, hmo, hpip, hbe, hsr, hpv, hexc],
                hsr, hso, rfl⟩
            · exact ⟨{ s with required := dinsert (pyCasefold (p.drop 2)) v s.required },
                by simp [ciStep, hreq, hmo, hpip, hbe, hsr, hso, hpv, hexc],
                hsr, hso, rfl⟩
    obtain ⟨s₁, h₁, hr₁, ho₁, hd₁⟩ := hstep
    obtain ⟨s', hF, hr', ho', hd'⟩ :=
      ih s₁ hr₁ ho₁ (fun ℓ' h' => hm ℓ' (List.mem_cons_of_mem _ h'))
    refine ⟨s', ?_, hr', ho', by rw [hd', hd₁]⟩
    unfold ciFold
    rw [List.foldlM_cons, h₁]
    simpa using hF

theorem mainRun_ci_congr {lines1 lines2 : List PyStr} {vs im : Dict}
    {allRaw testRaw : PyStr}
    (h : (getVersionsFromCI lines1).map Prod.snd =
      (getVersionsFromCI lines2).map Prod.snd) :
    mainRun lines1 vs im allRaw testRaw = mainRun lines2 vs im allRaw testRaw := by
  unfold mainRun
  cases h1 : getVersionsFromCI lines1 with
  | none =>
    cases h2 : getVersionsFromCI lines2 with
    | none => rfl
    | some pr =>
      rw [h1, h2] at h
      simp at h
  | some pr1 =>
    cases h2 : getVersionsFromCI lines2 with
    | none =>
      rw [h1, h2] at h
      simp at h
    | some pr2 =>
      rw [h1, h2] at h
      simp only [Option.map_some', Option.some.injEq] at h
      obtain ⟨r1, o1⟩ := pr1
      obtain ⟨r2, o2⟩ := pr2
      simp only [] at h
      subst h
      rfl

/-- C10 counterexample: two CI files differing only between the
required and optional markers (one holds a malformed line there) give
different observable behaviour — one run exits 0 printing nothing, the
other dies with an unhandled parse exception. -/
theorem c10_counterexample :
    mainRun [pystr "# required dependencies", pystr "# optional dependencies"]
        [(pystr "tzdata", pystr "1")] [] (pystr "\ntzdata>=1") (pystr "\n")
      = some ([], 0) ∧
    mainRun [pystr "# required dependencies", pystr "  - bad",
        pystr "# optional dependencies"]
        [(pystr "tzdata", pystr "1")] [] (pystr "\ntzdata>=1") (pystr "\n")
      = none := by
  exact ⟨by decide, by decide⟩

/-- C10 (amended): `main` discards the required-dependency mapping, so
two CI files that differ only in the required section (between the two
markers) produce identical printed output and exit status — provided
every differing line either contains a pip/required marker, is blank,
or splits into exactly a name and a version (a malformed line would
instead crash one run and not the other), and no line there or in the
prefix contains the optional marker. -/
theorem c10_required_section_ignored
    (pre midA midB post : List PyStr) (vs im : Dict) (allRaw testRaw : PyStr)
    (hpre : ∀ ℓ ∈ pre, pyContains optMarker ℓ = false)
    (hA : ∀ ℓ ∈ midA, pyContains optMarker ℓ = false ∧
      (pyContains reqMarker ℓ = true ∨ pyContains pipMarker ℓ = true ∨
        pyStrip ℓ = [] ∨ (splitDep ℓ).length = 2))
    (hB : ∀ ℓ ∈ midB, pyContains optMarker ℓ = false ∧
      (pyContains reqMarker ℓ = true ∨ pyContains pipMarker ℓ = true ∨
        pyStrip ℓ = [] ∨ (splitDep ℓ).length = 2)) :
    mainRun (pre ++ [reqMarker] ++ midA ++ [optMarker] ++ post) vs im allRaw testRaw =
      mainRun (pre ++ [reqMarker] ++ midB ++ [optMarker] ++ post) vs im allRaw testRaw := by
  have hmarker : pyContains reqMarker reqMarker = true := by decide
  have hmarker2 : pyContains optMarker reqMarker = false := by decide
  -- the optional parts of the two CI folds agree
  have key : ∀ (mid : List PyStr), (∀ ℓ ∈ mid, pyContains optMarker ℓ = false ∧
      (pyContains reqMarker ℓ = true ∨ pyContains pipMarker ℓ = true ∨
        pyStrip ℓ = [] ∨ (splitDep ℓ).length = 2)) →
      ∀ s0 : CIState, s0.seenOptional = false →
      ∃ s', (ciFold s0 ([reqMarker] ++ mid ++ [optMarker] ++ post)).map stripReq =
          (ciFold s' ([optMarker] ++ post)).map stripReq ∧
        s'.seenRequired = true ∧ s'.seenOptional = false ∧ s'.optDeps = s0.optDeps := by
    intro mid hmid s0 hs0
    have hstep1 : ciStep s0 reqMarker = some { s0 with seenRequired := true } := by
      simp [ciStep, hmarker]
    obtain ⟨s', hF, hr', ho', hd'⟩ :=
      ciFold_mid mid { s0 with seenRequired := true } rfl hs0 hmid
    refine ⟨s', ?_, hr', ho', hd'⟩
    have hsplit : [reqMarker] ++ mid ++ [optMarker] ++ post =
        [reqMarker] ++ (mid ++ ([optMarker] ++ post)) := by
      simp
    rw [hsplit, ciFold_append, ciFold_singleton, hstep1]
    simp only [Option.some_bind]
    rw [ciFold_append, hF]
    simp only [Option.some_bind]
  apply mainRun_ci_congr
  unfold getVersionsFromCI
  have hsnd : ∀ lines : List PyStr,
      ((ciFold ciInit lines).map fun s => (s.required, s.optDeps)).map Prod.snd =
        ((ciFold ciInit lines).map stripReq).map (fun x => x.2.2) := by
    intro lines
    cases ciFold ciInit lines <;> rfl
  rw [hsnd, hsnd]
  have hpresplit : ∀ (mid : List PyStr),
      pre ++ [reqMarker] ++ mid ++ [optMarker] ++ post =
        pre ++ ([reqMarker] ++ mid ++ [optMarker] ++ post) := by
    intro mid
    simp
  rw [hpresplit midA, hpresplit midB, ciFold_append, ciFold_append]
  cases hpre' : ciFold ciInit pre with
  | none => rfl
  | some s0 =>
    simp only [Option.some_bind]
    have hs0 : s0.seenOptional = false := ciFold_no_optMarker hpre hpre' rfl
    obtain ⟨sA, hAeq, hrA, hoA, hdA⟩ := key midA hA s0 hs0
    obtain ⟨sB, hBeq, hrB, hoB, hdB⟩ := key midB hB s0 hs0
    rw [hAeq, hBeq]
    have : stripReq sA = stripReq sB := by
      unfold stripReq
      rw [hrA, hrB, hoA, hoB, hdA, hdB]
    have hc := ciFold_congr ([optMarker] ++ post) sA sB this
    exact congrArg (Option.map (fun x => x.2.2)) hc

/-- C10 witness: a required-section entry (`numpy`) present in one file
and absent from the other changes nothing observable. -/
theorem c10_witness :
    mainRun ([] ++ [reqMarker] ++ [pystr "  - numpy=1.20"] ++ [optMarker] ++ [])
        [(pystr "tzdata", pystr "1")] [] (pystr "\ntzdata>=1") (pystr "\n") =
      mainRun ([] ++ [reqMarker] ++ [] ++ [optMarker] ++ [])
        [(pystr "tzdata", pystr "1")] [] (pystr "\ntzdata>=1") (pystr "\n") :=
  c10_required_section_ignored [] [pystr "  - numpy=1.20"] [] []
    [(pystr "tzdata", pystr "1")] [] (pystr "\ntzdata>=1") (pystr "\n")
    (by decide) (by decide) (by decide)
